import Mathlib

/-!
Verification development for the BGN→EUR Excel tables verifier
(`src/excel_tables_verifier.py`).

The core logic of the program is embedded shallowly:

* Python `Decimal` values are modelled by `PyDec`: a finite value is an exact
  rational (`Decimal` values are exact base-10 rationals; arithmetic on the
  values reached here is exact at the modelled precision), and the special
  values (quiet NaN, signaling NaN, infinities) are explicit constructors,
  because `Decimal('NaN')`, `Decimal('sNaN')` and `Decimal('Infinity')` are
  all constructible from cell text and behave differently in `verify_row`.
* Operations that can raise (`quantize` on a special value or with a
  coefficient longer than the context precision of 28 digits, any operation
  on a signaling NaN) return `Except DecErr`; the `try/except` of
  `verify_row` is the explicit `Except`-catch in `verify_row` below.
* Finite `Decimal` arithmetic is modelled at the value level under the
  default context: division by the rate and subtraction round their exact
  rational result to 28 significant digits with ties to even
  (`roundSig28`), exactly as the default context does, and `quantize`
  raises on a resulting coefficient of more than 28 digits. The exponent
  range of the context (`Emax`/`Emin`) is not modelled separately: every
  finite input whose division would overflow instead reaches the
  over-long-coefficient branch of `quantize` here, raising the same caught
  `InvalidOperation` with the same observable result of `verify_row`, and
  quotients small enough for subnormal rounding all quantize to `0.00`
  either way.
* A spreadsheet cell is modelled as `Option String`: `none` is an empty cell
  (openpyxl yields `None`), and `some s` is a cell whose raw value prints as
  `s` via `str(...)` — `parse_decimal` stringifies its argument first, so the
  embedding receives the printed form. Truthiness of a raw cell value in the
  header scan is approximated by non-emptiness of the printed form.
  Cells addressed beyond a sheet's physical extent read as `none`, as
  openpyxl returns `None` there.
* The numeric-string grammar of the `Decimal` constructor (sign, digits with
  optional point and exponent, `Inf`/`Infinity`, `NaN`/`sNaN` with optional
  diagnostic digits, case-insensitive, surrounding whitespace stripped) is
  implemented below; underscore grouping of digits is not modelled.
-/

namespace ExcelVerifier

/-- A Python `decimal.Decimal` value: a finite exact rational, an infinity
with its sign, a quiet NaN, or a signaling NaN. -/
inductive PyDec where
  | num (val : ℚ)
  | inf (negSign : Bool)
  | nan
  | snan
  deriving DecidableEq

/-- The arithmetic error relevant to `verify_row`: `decimal.InvalidOperation`
(raised, under the default context traps, by `quantize` on an infinity or a
signaling NaN or an over-long coefficient, and by any operation on a
signaling NaN). -/
inductive DecErr where
  | invalidOperation
  deriving DecidableEq

/-- The constant `BGN_TO_EUR_DIVISOR = Decimal('1.95583')`. -/
def BGN_TO_EUR_DIVISOR : ℚ := mkRat 195583 100000

/-- The context precision of the default Python decimal context (28
significant digits), which bounds the coefficient a `quantize` result may
have. -/
def decimalPrec : Nat := 28

/-- Reads an optional leading sign from a character list; returns whether the
sign was negative and the remaining characters. -/
def readSign : List Char → Bool × List Char
  | '-' :: rest => (true, rest)
  | '+' :: rest => (false, rest)
  | cs => (false, cs)

/-- Splits a character list into its longest prefix of decimal digits and the
rest. -/
def readDigits : List Char → List Char × List Char
  | [] => ([], [])
  | c :: rest =>
    if c.isDigit then
      let p := readDigits rest
      (c :: p.1, p.2)
    else ([], c :: rest)

/-- The natural number denoted by a list of decimal digit characters. -/
def digitsVal (ds : List Char) : Nat :=
  ds.foldl (fun n c => 10 * n + (c.toNat - 48)) 0

/-- Parses the exponent part of a numeric string (after the `e`): an optional
sign followed by at least one digit, consuming the whole rest. -/
def parseExponent (cs : List Char) : Option Int :=
  let s := readSign cs
  let p := readDigits s.2
  if p.1.isEmpty || !p.2.isEmpty then none
  else some (if s.1 then -(digitsVal p.1 : Int) else (digitsVal p.1 : Int))

/-- Parses the body of a finite numeric string (already lowercased, sign
removed): digits with an optional decimal point and an optional exponent,
with at least one digit in the integer or fractional part. Returns the
integer digits, the fractional digits and the exponent. -/
def parseNumBody (cs : List Char) : Option (List Char × List Char × Int) :=
  let p := readDigits cs
  match p.2 with
  | [] => if p.1.isEmpty then none else some (p.1, [], 0)
  | '.' :: r2 =>
    let f := readDigits r2
    if p.1.isEmpty && f.1.isEmpty then none
    else
      match f.2 with
      | [] => some (p.1, f.1, 0)
      | 'e' :: r4 => (parseExponent r4).map fun e => (p.1, f.1, e)
      | _ => none
  | 'e' :: r2 => if p.1.isEmpty then none else (parseExponent r2).map fun e => (p.1, [], e)
  | _ => none

/-- Ten to a natural power, as an integer. -/
def pow10 : Nat → ℤ
  | 0 => 1
  | n + 1 => 10 * pow10 n

/-- The exact rational value `±(digits) × 10^(exp - |frac|)` denoted by a
parsed numeric string. -/
def decOfParts (neg : Bool) (ids fds : List Char) (e : Int) : ℚ :=
  let coeff : Int := (digitsVal (ids ++ fds) : Int)
  let sc : Int := if neg then -coeff else coeff
  let exp : Int := e - (fds.length : Int)
  if 0 ≤ exp then mkRat (sc * pow10 exp.toNat) 1
  else mkRat sc (pow10 (-exp).toNat).toNat

/-- Recognizes `nan` followed by optional diagnostic digits (input already
lowercased). -/
def isNanTail : List Char → Bool
  | 'n' :: 'a' :: 'n' :: ds => ds.all Char.isDigit
  | _ => false

/-- The `Decimal(str)` constructor on an arbitrary string: strips surrounding
whitespace, then accepts (case-insensitively) a signed finite numeric string,
`inf`/`infinity`, `nan` or `snan` with optional diagnostic digits; `none`
models the `InvalidOperation` raised on any other input. -/
def decimalOfString (s : String) : Option PyDec :=
  let cs := s.trim.data.map Char.toLower
  let sg := readSign cs
  if sg.2 = "inf".data ∨ sg.2 = "infinity".data then some (.inf sg.1)
  else if isNanTail sg.2 then some .nan
  else
    match sg.2 with
    | 's' :: t => if isNanTail t then some .snan else none
    | _ => (parseNumBody sg.2).map fun p => .num (decOfParts sg.1 p.1 p.2.1 p.2.2)

/-- The characters of a cell's printed value after the cleaning done by
`parse_decimal`: every space removed, every comma replaced by a point. -/
def cleanedChars (s : String) : List Char :=
  (s.data.filter fun c => c ≠ ' ').map fun c => if c = ',' then '.' else c

/-- The function `parse_decimal` of the source: `None` stays `None`, any
other raw value is stringified, cleaned (spaces removed, comma to point) and
given to the `Decimal` constructor; a construction failure is caught and
returned as `None`. -/
def parse_decimal (number_str : Option String) : Option PyDec :=
  match number_str with
  | none => none
  | some s => decimalOfString (String.mk (cleanedChars s))

/-- Rounding to the nearest integer with ties away from zero, which is what
`ROUND_HALF_UP` does to the rescaled coefficient. -/
def roundHalfUpInt (x : ℚ) : ℤ :=
  if 0 ≤ x then Rat.floor (x + mkRat 1 2) else -Rat.floor (-x + mkRat 1 2)

/-- Rounding to the nearest integer with ties to the even neighbour, which
is what the default context rounding `ROUND_HALF_EVEN` does to the rescaled
coefficient of an arithmetic result. -/
def roundHalfEvenInt (x : ℚ) : ℤ :=
  let f := Rat.floor x
  let r := x - (f : ℚ)
  if r < mkRat 1 2 then f
  else if mkRat 1 2 < r then f + 1
  else if f % 2 = 0 then f else f + 1

/-- The number of decimal digits of `n`, computed with `n` itself as
recursion fuel (the recursion divides by ten, so any fuel of at least the
digit count suffices). -/
def numDigitsAux : Nat → Nat → Nat
  | 0, _ => 1
  | fuel + 1, n => if n < 10 then 1 else numDigitsAux fuel (n / 10) + 1

/-- The number of decimal digits of a natural number (one digit for zero). -/
def numDigits (n : Nat) : Nat := numDigitsAux n n

/-- The absolute value of a rational, by explicit sign test. -/
def absQ (q : ℚ) : ℚ := if q < 0 then -q else q

/-- Multiplies a rational by ten to an integer power. -/
def scaleByPow10 (q : ℚ) (e : ℤ) : ℚ :=
  if 0 ≤ e then q * ((pow10 e.toNat : ℤ) : ℚ)
  else q / ((pow10 (-e).toNat : ℤ) : ℚ)

/-- For nonzero `q`, the exponent of its leading decimal digit: the unique
`e` with `10 ^ e ≤ |q| < 10 ^ (e + 1)`, located from the digit counts of
numerator and denominator. -/
def ilog10 (q : ℚ) : ℤ :=
  if scaleByPow10 (mkRat 1 1)
      ((numDigits q.num.natAbs : ℤ) - (numDigits q.den : ℤ)) ≤ absQ q
  then (numDigits q.num.natAbs : ℤ) - (numDigits q.den : ℤ)
  else (numDigits q.num.natAbs : ℤ) - (numDigits q.den : ℤ) - 1

/-- The value of a finite `Decimal` arithmetic result under the default
context: the exact rational result rounded to 28 significant digits with
ties to even. Exactly representable results (at most 28 significant digits)
are returned unchanged, as the context rounding is then the identity. -/
def roundSig28 (q : ℚ) : ℚ :=
  if q = 0 then 0
  else
    let e : ℤ := ilog10 q - ((decimalPrec : ℤ) - 1)
    scaleByPow10 (mkRat (roundHalfEvenInt (scaleByPow10 q (-e))) 1) e

/-- The function `normalize` of the source:
`decimal.quantize(TWO_PLACES, rounding=ROUND_HALF_UP)`. On a finite value it
rounds to two decimal places (ties away from zero) and raises
`InvalidOperation` if the resulting coefficient exceeds the 28-digit context
precision; on an infinity or a signaling NaN it raises `InvalidOperation`;
a quiet NaN propagates quietly. -/
def normalize (d : PyDec) : Except DecErr PyDec :=
  match d with
  | .num q =>
    let n : Int := roundHalfUpInt (q * 100)
    if n.natAbs < 10 ^ decimalPrec then .ok (.num (mkRat n 100))
    else .error .invalidOperation
  | .nan => .ok .nan
  | _ => .error .invalidOperation

/-- The division `bgn_val / BGN_TO_EUR_DIVISOR`: on a finite value the
quotient is rounded to the 28-significant-digit context precision with ties
to even, as the default context does; quiet NaN and infinities propagate,
a signaling NaN raises `InvalidOperation`. -/
def divByRate (d : PyDec) : Except DecErr PyDec :=
  match d with
  | .num q => .ok (.num (roundSig28 (q / BGN_TO_EUR_DIVISOR)))
  | .nan => .ok .nan
  | .inf s => .ok (.inf s)
  | .snan => .error .invalidOperation

/-- The comparison `normalized_calc_eur != eur_price_normalized` on
`Decimal` values: a signaling NaN raises, a quiet NaN compares unequal to
everything (including itself) without raising, finite values compare by
value. -/
def decNe (a b : PyDec) : Except DecErr Bool :=
  match a, b with
  | .snan, _ => .error .invalidOperation
  | _, .snan => .error .invalidOperation
  | .nan, _ => .ok true
  | _, .nan => .ok true
  | .num x, .num y => .ok (decide (x ≠ y))
  | .inf s, .inf t => .ok (decide (s ≠ t))
  | .inf _, .num _ => .ok true
  | .num _, .inf _ => .ok true

/-- Decimal subtraction as used for the `Diff` field of a mismatch record.
Its operands there are always `normalize` results of a reported mismatch,
hence finite two-decimal values or a quiet NaN: on finite values the
difference is rounded to the 28-significant-digit context precision (the
identity whenever the difference fits, as every realistic one does), and
NaN propagates. -/
def decSub (a b : PyDec) : PyDec :=
  match a, b with
  | .num x, .num y => .num (roundSig28 (x - y))
  | _, _ => .nan

/-- The body of `verify_row` (the code inside the `try`), with each raising
operation made explicit in `Except`. Returns the source's result triple
`(is_mismatch, calculated_eur, normalized_eur_given)`. -/
def verify_rowBody (bgn_val eur_val : Option PyDec) :
    Except DecErr (Bool × Option PyDec × Option PyDec) :=
  match bgn_val with
  | none => .ok (false, none, none)
  | some b =>
    match divByRate b with
    | .error err => .error err
    | .ok calculated_eur =>
      match normalize calculated_eur with
      | .error err => .error err
      | .ok normalized_calc_eur =>
        match eur_val with
        | some ev =>
          match normalize ev with
          | .error err => .error err
          | .ok eur_price_normalized =>
            match decNe normalized_calc_eur eur_price_normalized with
            | .error err => .error err
            | .ok ne =>
              if ne then .ok (true, some normalized_calc_eur, some eur_price_normalized)
              else .ok (false, some normalized_calc_eur, none)
        | none => .ok (false, some normalized_calc_eur, none)

/-- The function `verify_row` of the source: the body above with the
`except Exception: return False, None, None` catch-all. -/
def verify_row (bgn_val eur_val : Option PyDec) :
    Bool × Option PyDec × Option PyDec :=
  match verify_rowBody bgn_val eur_val with
  | .ok res => res
  | .error _ => (false, none, none)

/-- A logical worksheet: row 1 is the header row, data rows start at row 2.
Each row is a list of cells indexed by 1-based column position. -/
structure Sheet where
  rows : List (List (Option String))
  deriving DecidableEq

/-- The value of the cell at 1-based row `r` and column `c`; cells beyond the
sheet's extent read as empty, as openpyxl returns `None` there. -/
def cellValue (ws : Sheet) (r c : Nat) : Option String :=
  (ws.rows.getD (r - 1) []).getD (c - 1) none

/-- The openpyxl `max_row` of a sheet (at least 1 even for an empty sheet). -/
def maxRow (ws : Sheet) : Nat := max 1 ws.rows.length

/-- Python truthiness of a cell value as used by the header scan `if
cell.value`, on the printed-form model: an empty cell and an empty string are
falsy. -/
def truthyCell : Option String → Bool
  | none => false
  | some s => !(s == "")

/-- The header scan of `get_column_index`: the 1-based position of the first
truthy header cell whose stripped printed value equals the target. -/
def findHeaderIdx : List (Option String) → Nat → String → Option Nat
  | [], _, _ => none
  | c :: rest, i, target =>
    if truthyCell c && ((c.getD ("")).trim == target) then some i
    else findHeaderIdx rest (i + 1) target

/-- The function `get_column_index` of the source: finds the 1-based index of
a column header in row 1 by exact match after stripping surrounding
whitespace (case-sensitive); `none` when absent. -/
def get_column_index (sheet : Sheet) (column_name : String) : Option Nat :=
  findHeaderIdx (sheet.rows.getD 0 []) 1 column_name.trim

/-- One step of the column-mapping loop of `main`: a requested name already
mapped is kept once (the source stores the mapping in a dict keyed by the
name), and a name is added only when `get_column_index` resolves it in both
sheets. -/
def resolveColumn (bgn_ws eur_ws : Sheet) (acc : List (String × Nat × Nat))
    (col_name : String) : List (String × Nat × Nat) :=
  if acc.any fun p => p.1 == col_name then acc
  else
    match get_column_index bgn_ws col_name, get_column_index eur_ws col_name with
    | some b, some e => acc ++ [(col_name, b, e)]
    | _, _ => acc

/-- The column map built by `main` from the selected column names, in
selection order. -/
def buildColumnMap (bgn_ws eur_ws : Sheet) (selected : List String) :
    List (String × Nat × Nat) :=
  selected.foldl (resolveColumn bgn_ws eur_ws) []

/-- A mismatch record as appended by `main`: the worksheet row number the
loop variable `r` holds, the column name, the parsed source BGN value, the
two normalized amounts returned by `verify_row`, and their difference. -/
structure MismatchRecord where
  row : Nat
  column : String
  sourceBgn : Option PyDec
  calcEur : Option PyDec
  givenEur : Option PyDec
  diff : Option PyDec
  deriving DecidableEq

/-- Builds the record `main` appends for a mismatch; `Diff` is
`calc_eur - given_eur` on the values `verify_row` returned. -/
def mkRecord (r : Nat) (name : String) (bgn_val calcv givv : Option PyDec) :
    MismatchRecord :=
  { row := r, column := name, sourceBgn := bgn_val, calcEur := calcv,
    givenEur := givv,
    diff := match calcv, givv with
            | some c, some g => some (decSub c g)
            | _, _ => none }

/-- The inner loop of `main` for one worksheet row: every mapped column is
parsed and verified, and each mismatch yields one record, in column-map
order. -/
def rowRecords (bgn_ws eur_ws : Sheet) (cmap : List (String × Nat × Nat))
    (r : Nat) : List MismatchRecord :=
  cmap.filterMap fun p =>
    let bgn_val := parse_decimal (cellValue bgn_ws r p.2.1)
    let eur_val := parse_decimal (cellValue eur_ws r p.2.2)
    let res := verify_row bgn_val eur_val
    if res.1 then some (mkRecord r p.1 bgn_val res.2.1 res.2.2) else none

/-- The processing loop of `main`: worksheet rows 2 through
`max(bgn_ws.max_row, eur_ws.max_row)` inclusive, scanned in order, each
contributing its mismatch records in column order. -/
def reconcile (bgn_ws eur_ws : Sheet) (selected : List String) :
    List MismatchRecord :=
  let cmap := buildColumnMap bgn_ws eur_ws selected
  let max_row := max (maxRow bgn_ws) (maxRow eur_ws)
  (List.range' 2 (max_row - 1)).flatMap (rowRecords bgn_ws eur_ws cmap)

/-- The expected EUR value by the specification's words alone ("compute
`expected_eur = bgn / ConversionRate`, then round to exactly 2 decimal
places using round-half-up"), with the division taken exactly: used to
state claims C2 and C3, which the program — dividing at the context
precision of 28 significant digits before rounding — does not satisfy. -/
def exactRoundedEur (b : ℚ) : ℚ :=
  mkRat (roundHalfUpInt (b / BGN_TO_EUR_DIVISOR * 100)) 100

/-- The BGN amount `0.00977914999999999999999999999999`, one unit in the
32nd decimal place below `0.00977915 = 1.95583 × 0.005`: its exact quotient
by the rate lies just below the `0.005` tie (so the exact expected EUR
rounds to `0.00`), while the 28-significant-digit quotient the program
computes rounds up to exactly `0.005`, which then quantizes half-up to
`0.01`. -/
def tieBoundaryBgn : ℚ :=
  mkRat 977914999999999999999999999999 100000000000000000000000000000000

/-- Worksheets demonstrating C1: one data row, BGN `100` against EUR `51.00`,
which mismatches (expected `51.13`). -/
def c1BgnSheet : Sheet := ⟨[[some ("Price")], [some ("100")]]⟩

def c1EurSheet : Sheet := ⟨[[some ("Price")], [some ("51.00")]]⟩

/-- The record the run on the C1 worksheets produces. -/
def c1Record : MismatchRecord :=
  mkRecord 2 ("Price") (some (.num 100)) (some (.num (mkRat 5113 100)))
    (some (.num 51))

/-- Worksheets demonstrating C7: the requested column exists only in the BGN
sheet. -/
def c7BgnSheet : Sheet := ⟨[[some ("Price")], [some ("10")]]⟩

def c7EurSheet : Sheet := ⟨[[some ("Other")], [some ("10")]]⟩

/-- Worksheets demonstrating C8: the EUR sheet has no data row at all. -/
def c8BgnSheet : Sheet := ⟨[[some ("Price")], [some ("100")]]⟩

def c8EurSheet : Sheet := ⟨[[some ("Price")]]⟩

/-! Helper lemmas about rounding and `normalize`. -/

theorem rat_floor_eq_int_floor (q : ℚ) : Rat.floor q = ⌊q⌋ := rfl

theorem mkRat_one_two_eq : (mkRat 1 2 : ℚ) = 1 / 2 := by
  rw [Rat.mkRat_eq_div]; norm_num

/-- Rounding half away from zero fixes every integer. -/
theorem roundHalfUpInt_intCast (n : ℤ) : roundHalfUpInt (n : ℚ) = n := by
  unfold roundHalfUpInt
  rw [rat_floor_eq_int_floor, rat_floor_eq_int_floor, mkRat_one_two_eq]
  by_cases h : 0 ≤ (n : ℚ)
  · rw [if_pos h, add_comm, Int.floor_add_int]
    norm_num
  · rw [if_neg h]
    have hn : -(n : ℚ) = ((-n : ℤ) : ℚ) := by push_cast; ring
    rw [hn, add_comm, Int.floor_add_int]
    norm_num

theorem mkRat_int_hundred (n : ℤ) : (mkRat n 100 : ℚ) = (n : ℚ) / 100 := by
  rw [Rat.mkRat_eq_div]; norm_num

/-- A successful `normalize` result is a two-decimal value whose coefficient
respects the context precision. -/
theorem normalize_ok_num {d : PyDec} {q : ℚ} (h : normalize d = .ok (.num q)) :
    ∃ n : ℤ, q = mkRat n 100 ∧ n.natAbs < 10 ^ decimalPrec := by
  cases d with
  | num x =>
    simp only [normalize] at h
    split at h
    · refine ⟨roundHalfUpInt (x * 100), ?_, by assumption⟩
      injection h with h1
      injection h1 with h2
      exact h2.symm
    · cases h
  | inf s => cases h
  | nan => injection h with h1; cases h1
  | snan => cases h

/-- A two-decimal value within the precision bound is a fixed point of
`normalize`. -/
theorem normalize_fix {n : ℤ} (h : n.natAbs < 10 ^ decimalPrec) :
    normalize (.num (mkRat n 100)) = .ok (.num (mkRat n 100)) := by
  have hval : (mkRat n 100 : ℚ) * 100 = (n : ℚ) := by
    rw [mkRat_int_hundred]
    exact div_mul_cancel₀ _ (by norm_num)
  simp only [normalize, hval, roundHalfUpInt_intCast, if_pos h]

/-- The `normalize` rounding is idempotent on finite results. -/
theorem normalize_idem {d : PyDec} {q : ℚ} (h : normalize d = .ok (.num q)) :
    normalize (.num q) = .ok (.num q) := by
  obtain ⟨n, rfl, hn⟩ := normalize_ok_num h
  exact normalize_fix hn

/-! Helper lemmas about the 28-significant-digit context rounding. -/

theorem pow10_cast_eq (k : Nat) : ((pow10 k : ℤ) : ℚ) = (10 : ℚ) ^ k := by
  induction k with
  | zero => simp [pow10]
  | succ m ih =>
    rw [pow10]
    push_cast
    rw [ih, pow_succ]
    ring

theorem scaleByPow10_eq_zpow (q : ℚ) (e : ℤ) :
    scaleByPow10 q e = q * (10 : ℚ) ^ e := by
  unfold scaleByPow10
  by_cases h : 0 ≤ e
  · rw [if_pos h, pow10_cast_eq, ← zpow_natCast (10 : ℚ) e.toNat,
      Int.toNat_of_nonneg h]
  · rw [if_neg h, pow10_cast_eq, ← zpow_natCast (10 : ℚ) (-e).toNat,
      Int.toNat_of_nonneg (by omega : (0 : ℤ) ≤ -e), div_eq_mul_inv,
      ← zpow_neg, neg_neg]

/-- Rounding half to even fixes every integer. -/
theorem roundHalfEvenInt_intCast (n : ℤ) : roundHalfEvenInt ((n : ℚ)) = n := by
  have h2 : (0 : ℚ) < mkRat 1 2 := by rw [mkRat_one_two_eq]; norm_num
  simp only [roundHalfEvenInt, rat_floor_eq_int_floor, Int.floor_intCast,
    sub_self, if_pos h2]

theorem numDigitsAux_pos (fuel n : Nat) : 1 ≤ numDigitsAux fuel n := by
  cases fuel with
  | zero => simp [numDigitsAux]
  | succ f =>
    rw [numDigitsAux]
    split
    · omega
    · omega

/-- The digit counter is exact: a positive `n` with digit count `d`
satisfies `10 ^ (d - 1) ≤ n < 10 ^ d`, for any sufficient fuel. -/
theorem numDigitsAux_bounds :
    ∀ fuel n : Nat, 0 < n → n ≤ fuel →
      10 ^ (numDigitsAux fuel n - 1) ≤ n ∧ n < 10 ^ numDigitsAux fuel n := by
  intro fuel
  induction fuel with
  | zero => intro n h1 h2; omega
  | succ f ih =>
    intro n h1 h2
    rw [numDigitsAux]
    by_cases h10 : n < 10
    · rw [if_pos h10]
      constructor
      · simpa using h1
      · simpa using h10
    · rw [if_neg h10]
      have hd : 0 < n / 10 := Nat.div_pos (by omega) (by norm_num)
      have hf : n / 10 ≤ f := by
        have hlt : n / 10 < n := Nat.div_lt_self h1 (by norm_num)
        omega
      obtain ⟨hlo, hhi⟩ := ih (n / 10) hd hf
      have hpos := numDigitsAux_pos f (n / 10)
      set d := numDigitsAux f (n / 10) with hd2
      have hde : d - 1 + 1 = d := by omega
      have hmod := Nat.div_add_mod n 10
      have hmlt : n % 10 < 10 := Nat.mod_lt n (by norm_num)
      have hcancel : d + 1 - 1 = d := by omega
      rw [hcancel]
      constructor
      · have h1' : 10 ^ d ≤ 10 * (n / 10) := by
          have hsplit : 10 ^ d = 10 * 10 ^ (d - 1) := by
            conv_lhs => rw [← hde]
            rw [pow_succ']
          rw [hsplit]
          exact Nat.mul_le_mul le_rfl hlo
        omega
      · have h2' : 10 * (n / 10 + 1) ≤ 10 * 10 ^ d := Nat.mul_le_mul le_rfl hhi
        have hps : 10 ^ (d + 1) = 10 * 10 ^ d := by rw [pow_succ]; ring
        omega

theorem numDigits_bounds (n : Nat) (h : 0 < n) :
    10 ^ (numDigits n - 1) ≤ n ∧ n < 10 ^ numDigits n :=
  numDigitsAux_bounds n n h le_rfl

theorem absQ_eq_abs (q : ℚ) : absQ q = |q| := by
  unfold absQ
  rcases lt_or_le q 0 with h | h
  · rw [if_pos h, abs_of_neg h]
  · rw [if_neg (not_lt.2 h), abs_of_nonneg h]

theorem int_abs_cast_q (n : ℤ) : |((n : ℚ))| = ((n.natAbs : ℚ)) := by
  rw [Int.cast_natAbs, Int.cast_abs]

theorem abs_eq_natAbs_div_den (q : ℚ) :
    |q| = (q.num.natAbs : ℚ) / (q.den : ℚ) := by
  conv_lhs => rw [← Rat.num_div_den q]
  rw [abs_div, int_abs_cast_q,
    abs_of_nonneg (by positivity : (0 : ℚ) ≤ (q.den : ℚ))]

/-- The located leading-digit exponent is a lower bound: `10 ^ ilog10 q`
never exceeds `|q|`. -/
theorem zpow_ilog10_le (q : ℚ) (hq : q ≠ 0) : (10 : ℚ) ^ ilog10 q ≤ |q| := by
  have hone : (mkRat 1 1 : ℚ) = 1 := by norm_num [Rat.mkRat_eq_div]
  unfold ilog10
  by_cases hc : scaleByPow10 (mkRat 1 1)
      ((numDigits q.num.natAbs : ℤ) - (numDigits q.den : ℤ)) ≤ absQ q
  · rw [if_pos hc]
    rw [scaleByPow10_eq_zpow, hone, one_mul, absQ_eq_abs] at hc
    exact hc
  · rw [if_neg hc]
    have hA : 0 < q.num.natAbs := Int.natAbs_pos.2 (Rat.num_ne_zero.mpr hq)
    have hB : 0 < q.den := q.pos
    obtain ⟨hA1, _⟩ := numDigits_bounds _ hA
    obtain ⟨_, hB2⟩ := numDigits_bounds _ hB
    rw [abs_eq_natAbs_div_den]
    set da := numDigits q.num.natAbs with hda0
    set db := numDigits q.den with hdb0
    have hda : 1 ≤ da := by rw [hda0]; exact numDigitsAux_pos _ _
    have hexp : (da : ℤ) - (db : ℤ) - 1 = ((da - 1 : ℕ) : ℤ) - (db : ℤ) := by
      omega
    rw [hexp, zpow_sub₀ (by norm_num : (10 : ℚ) ≠ 0), zpow_natCast, zpow_natCast]
    rw [div_le_div_iff₀ (by positivity) (by exact_mod_cast hB)]
    have c1 : (10 : ℚ) ^ (da - 1) * (q.den : ℚ) ≤
        (10 : ℚ) ^ (da - 1) * (10 : ℚ) ^ db := by
      have hb : (q.den : ℚ) ≤ (10 : ℚ) ^ db := by exact_mod_cast le_of_lt hB2
      exact mul_le_mul_of_nonneg_left hb (by positivity)
    have c2 : (10 : ℚ) ^ (da - 1) * (10 : ℚ) ^ db ≤
        (q.num.natAbs : ℚ) * (10 : ℚ) ^ db := by
      have ha : (10 : ℚ) ^ (da - 1) ≤ (q.num.natAbs : ℚ) := by exact_mod_cast hA1
      exact mul_le_mul_of_nonneg_right ha (by positivity)
    exact le_trans c1 c2

/-- The context rounding is the identity on every nonzero two-decimal value
whose coefficient fits within the 28-digit precision. -/
theorem roundSig28_two_decimal_fix (n : ℤ) (h0 : n ≠ 0)
    (h : n.natAbs < 10 ^ decimalPrec) :
    roundSig28 (mkRat n 100) = mkRat n 100 := by
  have hq0 : (mkRat n 100 : ℚ) ≠ 0 := by
    rw [mkRat_int_hundred]
    exact div_ne_zero (Int.cast_ne_zero.2 h0) (by norm_num)
  have h28 : n.natAbs < 10 ^ 28 := h
  have habs : |(mkRat n 100 : ℚ)| < (10 : ℚ) ^ (26 : ℤ) := by
    rw [mkRat_int_hundred, abs_div, abs_of_nonneg (by norm_num : (0 : ℚ) ≤ 100)]
    rw [int_abs_cast_q]
    rw [div_lt_iff₀ (by norm_num : (0 : ℚ) < 100)]
    have hq28 : ((n.natAbs : ℚ)) < (10 : ℚ) ^ (28 : ℕ) := by exact_mod_cast h28
    calc ((n.natAbs : ℚ)) < (10 : ℚ) ^ (28 : ℕ) := hq28
    _ = (10 : ℚ) ^ (26 : ℤ) * 100 := by
        rw [show ((26 : ℤ)) = ((26 : ℕ) : ℤ) from rfl, zpow_natCast]
        norm_num
  have hL : ilog10 (mkRat n 100) ≤ 25 := by
    have h1 := zpow_ilog10_le (mkRat n 100) hq0
    have h2 : (10 : ℚ) ^ ilog10 (mkRat n 100) < (10 : ℚ) ^ (26 : ℤ) :=
      lt_of_le_of_lt h1 habs
    have h3 : ilog10 (mkRat n 100) < 26 :=
      (zpow_lt_zpow_iff_right₀ (by norm_num : (1 : ℚ) < 10)).1 h2
    omega
  simp only [roundSig28, if_neg hq0]
  set e : ℤ := ilog10 (mkRat n 100) - ((decimalPrec : ℤ) - 1) with he
  have hePos : 0 ≤ -e - 2 := by
    have hp : (decimalPrec : ℤ) = 28 := rfl
    omega
  have hscale : scaleByPow10 (mkRat n 100) (-e) =
      ((n * 10 ^ ((-e - 2).toNat) : ℤ) : ℚ) := by
    rw [scaleByPow10_eq_zpow, mkRat_int_hundred]
    push_cast
    rw [← zpow_natCast (10 : ℚ) ((-e - 2).toNat), Int.toNat_of_nonneg hePos]
    rw [show (100 : ℚ) = (10 : ℚ) ^ (2 : ℤ) from by norm_num]
    rw [div_mul_eq_mul_div, mul_div_assoc,
      ← zpow_sub₀ (by norm_num : (10 : ℚ) ≠ 0)]
  rw [hscale, roundHalfEvenInt_intCast, scaleByPow10_eq_zpow]
  rw [show (mkRat (n * 10 ^ ((-e - 2).toNat)) 1 : ℚ) =
      ((n * 10 ^ ((-e - 2).toNat) : ℤ) : ℚ) from by
    rw [Rat.mkRat_eq_div]; norm_num]
  push_cast
  rw [← zpow_natCast (10 : ℚ) ((-e - 2).toNat), Int.toNat_of_nonneg hePos,
    mkRat_int_hundred]
  rw [mul_assoc, ← zpow_add₀ (by norm_num : (10 : ℚ) ≠ 0)]
  rw [show -e - 2 + e = (-2 : ℤ) from by ring]
  rw [show ((10 : ℚ)) ^ ((-2 : ℤ)) = 1 / 100 from by
    rw [zpow_neg, show ((2 : ℤ)) = ((2 : ℕ) : ℤ) from rfl, zpow_natCast]
    norm_num]
  ring

/-- Decimal subtraction is exact on two-decimal values whose difference
fits within the 28-digit precision. -/
theorem decSub_two_decimal_exact (a b : ℤ) (hne : a ≠ b)
    (h : (a - b).natAbs < 10 ^ decimalPrec) :
    decSub (.num (mkRat a 100)) (.num (mkRat b 100)) =
      .num (mkRat (a - b) 100) := by
  have hsub : (mkRat a 100 : ℚ) - mkRat b 100 = mkRat (a - b) 100 := by
    rw [mkRat_int_hundred, mkRat_int_hundred, mkRat_int_hundred]
    push_cast
    ring
  simp only [decSub, hsub]
  rw [roundSig28_two_decimal_fix (a - b) (sub_ne_zero.2 hne) h]

/-! Helper lemmas about `verify_row` on absent operands. -/

theorem vrow_bgn_none (eur_val : Option PyDec) :
    verify_row none eur_val = (false, none, none) := rfl

theorem vrow_some_eur_none (b : PyDec) :
    (verify_row (some b) none).1 = false ∧
      (verify_row (some b) none).2.2 = none := by
  simp only [verify_row, verify_rowBody]
  cases hdb : divByRate b with
  | error err => exact ⟨rfl, rfl⟩
  | ok c =>
    dsimp only
    cases hn : normalize c with
    | error err => exact ⟨rfl, rfl⟩
    | ok nc => exact ⟨rfl, rfl⟩

theorem vrow_eur_none_fst (x : Option PyDec) : (verify_row x none).1 = false := by
  cases x with
  | none => rfl
  | some b => exact (vrow_some_eur_none b).1

/-- Claim C2 counterexample: at the parsable BGN amount
`0.00977914999999999999999999999999` the exact round-half-up of
`bgn / 1.95583` is `0.00`, yet presenting exactly `0.00` as the given EUR
value makes `verify_row` flag a mismatch (it computes `0.01`, because the
division rounds the quotient up to `0.005` at the 28-significant-digit
context precision before quantizing): a false positive on an exact value. -/
theorem c2_false_positive_at_tie_boundary :
    parse_decimal (some ("0.00977914999999999999999999999999")) =
      some (.num tieBoundaryBgn) ∧
      exactRoundedEur tieBoundaryBgn = 0 ∧
      verify_row (some (.num tieBoundaryBgn)) (some (.num 0)) =
        (true, some (.num (mkRat 1 100)), some (.num 0)) := by
  refine ⟨?_, ?_, ?_⟩
  · with_unfolding_all rfl
  · with_unfolding_all rfl
  · with_unfolding_all rfl

/-- Claim C2 amended: for any parsable BGN amount whose expected EUR value —
as the program computes it, dividing at the 28-significant-digit context
precision — rounds successfully to the two-decimal value `q`, presenting
exactly `q` as the given EUR value makes `verify_row` take the match path:
no mismatch is flagged and the rounded computed value is returned with no
given-value component. Relative to the exact quotient the guarantee fails
only where the two divisions round differently, within one part in `10^27`
of a tie. -/
theorem c2_amended_computed_eur_never_flagged (b db : PyDec) (q : ℚ)
    (h1 : divByRate b = .ok db) (h2 : normalize db = .ok (.num q)) :
    verify_row (some b) (some (.num q)) = (false, some (.num q), none) := by
  have h3 := normalize_idem h2
  simp only [verify_row, verify_rowBody]
  rw [h1]
  dsimp only
  rw [h2]
  dsimp only
  rw [h3]
  simp [decNe]

/-- Witness for the amended C2 at BGN `1.95583` and EUR `1`. -/
theorem c2_amended_computed_eur_never_flagged_witness :
    verify_row (some (.num (mkRat 195583 100000))) (some (.num 1)) =
      (false, some (.num 1), none) :=
  c2_amended_computed_eur_never_flagged (.num (mkRat 195583 100000)) (.num 1) 1
    (by with_unfolding_all rfl) (by with_unfolding_all rfl)

/-- Claim C3 counterexample: at the parsable BGN amount
`0.00977914999999999999999999999999` and the parsable given EUR `0.01`, the
exact two-decimal round-half-up of `bgn / 1.95583` is `0.00`, unequal to the
rounded given value `0.01` (which `normalize` fixes), yet `verify_row`
returns the match path with no mismatch: the program's expected value is the
rounded quotient at context precision, not the exact one the claim uses. -/
theorem c3_exact_unequal_yet_no_mismatch :
    parse_decimal (some ("0.00977914999999999999999999999999")) =
      some (.num tieBoundaryBgn) ∧
      exactRoundedEur tieBoundaryBgn = 0 ∧
      normalize (.num (mkRat 1 100)) = .ok (.num (mkRat 1 100)) ∧
      (0 : ℚ) ≠ mkRat 1 100 ∧
      verify_row (some (.num tieBoundaryBgn)) (some (.num (mkRat 1 100))) =
        (false, some (.num (mkRat 1 100)), none) := by
  refine ⟨?_, ?_, ?_, ?_, ?_⟩
  · with_unfolding_all rfl
  · with_unfolding_all rfl
  · with_unfolding_all rfl
  · with_unfolding_all decide
  · with_unfolding_all rfl

/-- Claim C3 amended: when both values are present and parsable and the
two-decimal round-half-up values `qc` (of the expected EUR as the program
computes it, dividing at the 28-significant-digit context precision) and
`qe` (of the given EUR) differ, `verify_row` reports a mismatch carrying
both rounded values; the record built from them carries the Decimal
difference of the two, which equals the exact `qc - qe` whenever that
difference's two-decimal coefficient fits within the context precision (as
every realistic difference does, the context otherwise rounding it to 28
significant digits), and whose sign is positive exactly when the file's EUR
value is lower than the computed expected one. -/
theorem c3_amended_mismatch_carries_values_and_diff (b e db : PyDec)
    (qc qe : ℚ)
    (h1 : divByRate b = .ok db) (h2 : normalize db = .ok (.num qc))
    (h3 : normalize e = .ok (.num qe)) (hne : qc ≠ qe) :
    verify_row (some b) (some e) = (true, some (.num qc), some (.num qe)) ∧
      (∀ (r : Nat) (name : String) (bv : Option PyDec),
        (mkRecord r name bv (some (.num qc)) (some (.num qe))).diff =
          some (decSub (.num qc) (.num qe))) ∧
      (∀ n : ℤ, qc - qe = mkRat n 100 → n.natAbs < 10 ^ decimalPrec →
        decSub (.num qc) (.num qe) = .num (qc - qe)) ∧
      (0 < qc - qe ↔ qe < qc) := by
  refine ⟨?_, fun r name bv => rfl, ?_, sub_pos⟩
  · simp only [verify_row, verify_rowBody]
    rw [h1]
    dsimp only
    rw [h2]
    dsimp only
    rw [h3]
    simp [decNe, hne]
  · intro n hn hbound
    have hn0 : n ≠ 0 := by
      intro h0
      rw [h0] at hn
      have : (mkRat 0 100 : ℚ) = 0 := by norm_num [Rat.mkRat_eq_div]
      rw [this] at hn
      exact hne (by linarith [sub_eq_zero.1 hn])
    simp only [decSub]
    rw [hn, roundSig28_two_decimal_fix n hn0 hbound, ← hn]

/-- Witness for the amended C3 at BGN `1.95583` and EUR `2`: computed
expected `1.00`, given `2.00`, difference `-1.00` (exact, coefficient well
within precision). -/
theorem c3_amended_mismatch_carries_values_and_diff_witness :
    verify_row (some (.num (mkRat 195583 100000))) (some (.num 2)) =
      (true, some (.num 1), some (.num 2)) ∧
      (∀ (r : Nat) (name : String) (bv : Option PyDec),
        (mkRecord r name bv (some (.num 1)) (some (.num 2))).diff =
          some (decSub (.num 1) (.num 2))) ∧
      (∀ n : ℤ, (1 : ℚ) - 2 = mkRat n 100 → n.natAbs < 10 ^ decimalPrec →
        decSub (.num 1) (.num 2) = .num ((1 : ℚ) - 2)) ∧
      (0 < (1 : ℚ) - 2 ↔ (2 : ℚ) < 1) :=
  c3_amended_mismatch_carries_values_and_diff (.num (mkRat 195583 100000))
    (.num 2) (.num 1) 1 2
    (by with_unfolding_all rfl) (by with_unfolding_all rfl)
    (by with_unfolding_all rfl) (by norm_num)

/-- Claim C4: an absent or unparsable BGN value yields the not-applicable
triple for every EUR value, and a parsable BGN value with an absent or
unparsable EUR value never flags a mismatch and carries no given value; in
both cases the reconciler appends no record since only a `true` first
component does. -/
theorem c4_absence_suppresses_mismatch :
    (∀ eur_val : Option PyDec, verify_row none eur_val = (false, none, none)) ∧
      ∀ b : PyDec, (verify_row (some b) none).1 = false ∧
        (verify_row (some b) none).2.2 = none :=
  ⟨vrow_bgn_none, vrow_some_eur_none⟩

/-- Claim C5: whenever the body of `verify_row` (the code inside its `try`)
raises an arithmetic error, the catch-all returns the not-applicable triple;
no exception escapes `verify_row`, which is total. -/
theorem c5_arith_errors_become_not_applicable (bgn_val eur_val : Option PyDec)
    (err : DecErr) (h : verify_rowBody bgn_val eur_val = .error err) :
    verify_row bgn_val eur_val = (false, none, none) := by
  simp only [verify_row]
  rw [h]

/-- Witness for C5: a signaling NaN BGN value makes the division raise
`InvalidOperation`, which `verify_row` downgrades to the not-applicable
triple. -/
theorem c5_arith_errors_become_not_applicable_witness :
    verify_rowBody (some .snan) none = .error .invalidOperation ∧
      verify_row (some .snan) none = (false, none, none) :=
  ⟨rfl, c5_arith_errors_become_not_applicable (some .snan) none .invalidOperation rfl⟩

/-- Claim C6 counterexample: `parse_decimal` returns the very same value for
an empty cell and for malformed text, so the "absent" outcome is not
distinct from the "unparsable" outcome. -/
theorem c6_empty_equals_unparsable_marker :
    parse_decimal none = parse_decimal (some ("abc")) := by
  with_unfolding_all rfl

/-- Claim C6 amended: `parse_decimal` maps an empty cell to `none` and
malformed text to the same `none` marker; the two outcomes are not
distinguishable by the caller. -/
theorem c6_amended_single_none_marker :
    parse_decimal none = none ∧ parse_decimal (some ("abc")) = none :=
  ⟨rfl, by with_unfolding_all rfl⟩

/-! Helper lemmas about membership in the reconciler's output. -/

/-- Every record produced while scanning worksheet row `r` comes from a
column-map entry, carries `r` as its row number and that entry's name as its
column. -/
theorem mem_rowRecords {A B : Sheet} {m : List (String × Nat × Nat)} {r : Nat}
    {rec : MismatchRecord} (h : rec ∈ rowRecords A B m r) :
    ∃ p ∈ m, rec.row = r ∧ rec.column = p.1 := by
  rw [rowRecords, List.mem_filterMap] at h
  obtain ⟨p, hp, he⟩ := h
  refine ⟨p, hp, ?_⟩
  dsimp only at he
  split at he
  · injection he with he1
    rw [← he1]
    exact ⟨rfl, rfl⟩
  · cases he

/-- Every record of a run comes from some worksheet row in the scanned range
`2 .. max(max_row, max_row)`. -/
theorem mem_reconcile {A B : Sheet} {sel : List String} {rec : MismatchRecord}
    (h : rec ∈ reconcile A B sel) :
    ∃ r, (2 ≤ r ∧ r ≤ max (maxRow A) (maxRow B)) ∧
      rec ∈ rowRecords A B (buildColumnMap A B sel) r := by
  simp only [reconcile, List.mem_flatMap] at h
  obtain ⟨r, hr, hmem⟩ := h
  rw [List.mem_range'_1] at hr
  have hmax : 1 ≤ max (maxRow A) (maxRow B) :=
    le_trans (by simp [maxRow]) (le_max_left _ _)
  exact ⟨r, ⟨hr.1, by omega⟩, hmem⟩

set_option maxRecDepth 16000 in
/-- Claim C1 counterexample: the mismatch found in the first data row (the
row immediately after the header) is reported with row number 2 — the
worksheet row the loop variable holds — not with the 1-based data-row
number 1. -/
theorem c1_first_data_row_reported_as_two :
    (reconcile c1BgnSheet c1EurSheet [("Price")]).map (fun rec => rec.row) =
      [2] ∧ (2 : Nat) ≠ 1 := by
  constructor
  · with_unfolding_all rfl
  · decide

/-- Claim C1 amended: each emitted record's row number is the absolute
worksheet row at which the mismatch was found, which lies between 2 and the
scanned maximum row; the first data row is therefore reported as row 2. -/
theorem c1_amended_row_is_worksheet_row (A B : Sheet) (sel : List String)
    (rec : MismatchRecord) (h : rec ∈ reconcile A B sel) :
    2 ≤ rec.row ∧ rec.row ≤ max (maxRow A) (maxRow B) ∧
      rec ∈ rowRecords A B (buildColumnMap A B sel) rec.row := by
  obtain ⟨r, ⟨h2, hle⟩, hmem⟩ := mem_reconcile h
  obtain ⟨p, hp, hrow, hcol⟩ := mem_rowRecords hmem
  rw [hrow]
  exact ⟨h2, hle, hmem⟩

set_option maxRecDepth 16000 in
/-- Witness for the amended C1 on the demonstration worksheets. -/
theorem c1_amended_row_is_worksheet_row_witness :
    2 ≤ c1Record.row ∧
      c1Record.row ≤ max (maxRow c1BgnSheet) (maxRow c1EurSheet) ∧
      c1Record ∈ rowRecords c1BgnSheet c1EurSheet
        (buildColumnMap c1BgnSheet c1EurSheet [("Price")]) c1Record.row :=
  c1_amended_row_is_worksheet_row c1BgnSheet c1EurSheet [("Price")] c1Record
    (by rw [show reconcile c1BgnSheet c1EurSheet [("Price")] = [c1Record] from
          by with_unfolding_all rfl]
        exact List.mem_singleton.2 rfl)

/-- A requested name that `get_column_index` resolves in neither or only one
sheet never enters the column map, whatever the fold has accumulated. -/
theorem columnMap_misses (A B : Sheet) (name : String)
    (h : get_column_index A name = none ∨ get_column_index B name = none) :
    ∀ (sel : List String) (acc : List (String × Nat × Nat)),
      (∀ p ∈ acc, p.1 ≠ name) →
      ∀ p ∈ sel.foldl (resolveColumn A B) acc, p.1 ≠ name := by
  intro sel
  induction sel with
  | nil => intro acc hacc; simpa using hacc
  | cons c cs ih =>
    intro acc hacc
    simp only [List.foldl_cons]
    apply ih
    intro p hp
    unfold resolveColumn at hp
    by_cases hany : acc.any fun q => q.1 == c
    · rw [if_pos hany] at hp
      exact hacc p hp
    · rw [if_neg hany] at hp
      rcases hA : get_column_index A c with _ | bidx <;>
        rcases hB : get_column_index B c with _ | eidx <;>
          rw [hA, hB] at hp
      · exact hacc p hp
      · exact hacc p hp
      · exact hacc p hp
      · by_cases hc : c = name
        · subst hc
          rcases h with h1 | h1
          · rw [hA] at h1; cases h1
          · rw [hB] at h1; cases h1
        · rcases List.mem_append.1 hp with hin | hin
          · exact hacc p hin
          · have : p = (c, bidx, eidx) := List.mem_singleton.1 hin
            rw [this]
            exact hc

/-- Claim C7: a requested column name that is absent (by the trimmed,
case-sensitive header match of `get_column_index`) from either sheet's
header never enters the column map and never yields a record; the run is
total, so nothing is raised. -/
theorem c7_missing_column_zero_records (A B : Sheet) (sel : List String)
    (name : String)
    (h : get_column_index A name = none ∨ get_column_index B name = none) :
    (∀ p ∈ buildColumnMap A B sel, p.1 ≠ name) ∧
      ∀ rec ∈ reconcile A B sel, rec.column ≠ name := by
  have hmap := columnMap_misses A B name h sel [] (by simp)
  refine ⟨hmap, ?_⟩
  intro rec hrec
  obtain ⟨r, hr, hmem⟩ := mem_reconcile hrec
  obtain ⟨p, hp, hrow, hcol⟩ := mem_rowRecords hmem
  rw [hcol]
  exact hmap p hp

/-- Witness for C7: requesting `Price`, which the EUR sheet's header lacks,
contributes no map entry and no record. -/
theorem c7_missing_column_zero_records_witness :
    (∀ p ∈ buildColumnMap c7BgnSheet c7EurSheet [("Price")],
        p.1 ≠ ("Price" : String)) ∧
      ∀ rec ∈ reconcile c7BgnSheet c7EurSheet [("Price")],
        rec.column ≠ ("Price" : String) :=
  c7_missing_column_zero_records c7BgnSheet c7EurSheet [("Price")] ("Price")
    (Or.inr (by with_unfolding_all rfl))

/-- Claim C8: any cell addressed beyond a sheet's physical extent reads as
empty, and a worksheet row beyond either sheet's extent contributes no
record: with the BGN side absent the pair is not applicable outright, and
with the EUR side absent no mismatch can be flagged, whatever the other
sheet holds. -/
theorem c8_row_padding_no_records (A B : Sheet)
    (m : List (String × Nat × Nat)) (r : Nat) :
    (A.rows.length < r → ∀ c, cellValue A r c = none) ∧
      (B.rows.length < r → ∀ c, cellValue B r c = none) ∧
      ((A.rows.length < r ∨ B.rows.length < r) → rowRecords A B m r = []) := by
  have hcell : ∀ (S : Sheet), S.rows.length < r → ∀ c, cellValue S r c = none := by
    intro S hS c
    unfold cellValue
    rw [List.getD_eq_default S.rows [] (by omega)]
    rfl
  refine ⟨hcell A, hcell B, ?_⟩
  intro hor
  rw [rowRecords, List.filterMap_eq_nil_iff]
  intro p hp
  dsimp only
  rcases hor with hA | hB
  · rw [hcell A hA p.2.1]
    rfl
  · rw [hcell B hB p.2.2]
    rw [show parse_decimal none = none from rfl]
    rw [vrow_eur_none_fst]
    rfl

/-- Witness for C8: worksheet row 2 lies beyond the EUR sheet's single
physical row, so the scan of that row yields no record although the BGN
sheet holds a value there. -/
theorem c8_row_padding_no_records_witness :
    rowRecords c8BgnSheet c8EurSheet [(("Price"), 1, 1)] 2 = [] :=
  (c8_row_padding_no_records c8BgnSheet c8EurSheet [(("Price"), 1, 1)] 2).2.2
    (Or.inr (by decide))

/-- Claim C9: the cell text `0` parses to the valid amount zero (not to the
absent marker), and `verify_row` on it performs the comparison: any given
EUR value that rounds to `0.00` matches, and any other rounded given value
is flagged as a mismatch against the expected `0.00`. -/
theorem c9_zero_bgn_is_compared :
    parse_decimal (some ("0")) = some (.num 0) ∧
      ∀ (e : PyDec) (qe : ℚ), normalize e = .ok (.num qe) →
        verify_row (parse_decimal (some ("0"))) (some e) =
          if qe = 0 then (false, some (.num 0), none)
          else (true, some (.num 0), some (.num qe)) := by
  have hp : parse_decimal (some ("0")) = some (.num 0) := by with_unfolding_all rfl
  refine ⟨hp, ?_⟩
  intro e qe he
  rw [hp]
  have hdiv : divByRate (.num 0) = .ok (.num 0) := by
    with_unfolding_all rfl
  have hnorm : normalize (.num 0) = .ok (.num 0) := by with_unfolding_all rfl
  simp only [verify_row, verify_rowBody]
  rw [hdiv]
  dsimp only
  rw [hnorm]
  dsimp only
  rw [he]
  by_cases hq : qe = 0
  · subst hq
    simp [decNe]
  · have hne : (0 : ℚ) ≠ qe := fun hz => hq hz.symm
    rw [if_neg hq]
    simp [decNe, hne]

/-- Witness for C9 at given EUR `0`: the pair matches. -/
theorem c9_zero_bgn_is_compared_witness :
    verify_row (parse_decimal (some ("0"))) (some (.num 0)) =
      (false, some (.num 0), none) := by
  have h := c9_zero_bgn_is_compared.2 (.num 0) 0 (by with_unfolding_all rfl)
  simpa using h

/-- Claim C10 at its failing input: a BGN cell holding the text `NaN` parses
to a quiet NaN, which survives division and `quantize` without raising, and
compares unequal to the normalized given EUR value `5`, so `verify_row`
reports a mismatch whose calculated side is NaN — not a two-decimal finite
amount — violating the claimed invariant that both sides of a reported
mismatch are quantized decimals. -/
theorem c10_nan_bgn_mismatch_failing_input :
    verify_row (parse_decimal (some ("NaN"))) (parse_decimal (some ("5"))) =
      (true, some .nan, some (.num 5)) ∧
      parse_decimal (some ("NaN")) = some .nan ∧
      ∀ q : ℚ, PyDec.nan ≠ PyDec.num q := by
  refine ⟨by with_unfolding_all rfl, by with_unfolding_all rfl, ?_⟩
  intro q hq
  cases hq

/-- Sanity check of the parser on the spec's locale scenario: space as
thousands separator, comma as decimal separator. -/
theorem parse_locale_scenario :
    parse_decimal (some ("1 234,56")) = some (.num (mkRat 123456 100)) := by
  with_unfolding_all rfl

/-- Sanity check of the parser on exponent syntax. -/
theorem parse_exponent_scenario :
    parse_decimal (some ("1.5E-2")) = some (.num (mkRat 15 1000)) := by
  with_unfolding_all rfl

/-- Sanity check of the parser on the special values the `Decimal`
constructor accepts. -/
theorem parse_special_values :
    parse_decimal (some ("sNaN7")) = some .snan ∧
      parse_decimal (some ("-Infinity")) = some (.inf true) := by
  constructor <;> with_unfolding_all rfl

/-- Sanity check: an infinite BGN value is caught by the quantize step and
degrades to the not-applicable triple. -/
theorem verify_infinite_bgn_not_applicable :
    verify_row (some (.inf false)) (some (.num 5)) = (false, none, none) := by
  with_unfolding_all rfl

end ExcelVerifier
